import Mathlib

/-!
Shallow embedding of the grawlix comic downloader core
(identifier model, request/response trampoline, recursive
resolver, downloader, page decryption, archive writer, progress ledger),
with theorems checking the natural-language specification against it.

Bytes are modelled as `Nat` (values < 256 in the source; the byte-level
operations used here, XOR and little-endian decoding, are stated on `Nat`
directly). Rust `panic!` / `unreachable!` are modelled by an explicit
`panic` constructor, kept distinct from the returned error taxonomy of
`GrawlixDownloadError`.
-/

namespace Grawlix

/-- Mirrors `GrawlixDownloadError` from `src/error.rs` (payloads kept as
the formatted strings the source carries). -/
inductive DownloadError where
  | PagesNotSupported (source : String)
  | FailedAuthentication (source : String)
  | FailedDownload (url : String)
  | RequestError (msg : String)
  | UrlNotSupported (url : String)
  | FailedResponseParse
deriving DecidableEq, Repr

/-- Mirrors `Identifier` from `src/metadata/mod.rs`. -/
structure Identifier where
  source : String
  id : String
deriving DecidableEq, Repr

/-- Mirrors `AuthorType` from `src/metadata/mod.rs`. -/
inductive AuthorType where
  | Writer | Penciller | Inker | Colorist | Letterer | CoverArtist | Editor | Other
deriving DecidableEq, Repr

/-- Mirrors `Author` from `src/metadata/mod.rs`. -/
structure Author where
  name : String
  author_type : AuthorType
deriving DecidableEq, Repr

/-- Mirrors `ReadingDirection` from `src/metadata/mod.rs`. -/
inductive ReadingDirection where
  | LeftToRight | RightToLeft
deriving DecidableEq, Repr

instance : Inhabited ReadingDirection := ⟨.LeftToRight⟩

/-- Mirrors `Metadata` from `src/metadata/mod.rs` (all fields). -/
structure Metadata where
  title : Option String := none
  authors : List Author := []
  publisher : Option String := none
  series : Option String := none
  issue_number : Option Nat := none
  year : Option Nat := none
  month : Option Nat := none
  day : Option Nat := none
  reading_direction : ReadingDirection := .LeftToRight
  identifiers : List Identifier := []
  description : Option String := none
  source : Option String := none
deriving DecidableEq, Repr

instance : Inhabited Metadata := ⟨{}⟩

/-- Mirrors `ComicId` from `src/source/mod.rs`. -/
inductive ComicId where
  | Issue (id : String)
  | IssueWithMetadata (id : String) (meta : Metadata)
  | Other (id : String)
  | OtherWithMetadata (id : String) (meta : Metadata)
  | Series (id : String)
deriving DecidableEq, Repr

/-- Mirrors `ComicId::inner` from `src/source/mod.rs`. -/
def ComicId.inner : ComicId → String
  | .Issue x => x
  | .IssueWithMetadata x _ => x
  | .Other x => x
  | .OtherWithMetadata x _ => x
  | .Series x => x

/-- A leaf (terminal, downloadable) identifier variant: `Issue` or
`IssueWithMetadata`. -/
def ComicId.isLeaf : ComicId → Bool
  | .Issue _ => true
  | .IssueWithMetadata _ _ => true
  | _ => false

/-! ## Page model and decryption (`src/comic/mod.rs`, duplicated in
`src/comic/page.rs`) -/

/-- Mirrors `PageEncryptionScheme`. The AES key/iv and the
DC Universe Infinite 32-byte key are byte lists. -/
inductive PageEncryptionScheme where
  | AES (key : List Nat) (iv : List Nat)
  | DCUniverseInfinite (key : List Nat)
  | XOR (key : List Nat)
deriving DecidableEq, Repr

/-- Mirrors `OnlinePage`. -/
structure OnlinePage where
  url : String
  headers : Option (List (String × String)) := none
  encryption : Option PageEncryptionScheme := none
deriving DecidableEq, Repr

/-- Mirrors `PageType`. -/
inductive PageType where
  | Url (p : OnlinePage)
  | Container (filename : String)
deriving DecidableEq, Repr

/-- Mirrors `Page`. -/
structure Page where
  file_format : String
  page_type : PageType
deriving DecidableEq, Repr

/-- Result of a Rust function that may `panic!`: either a normal value or
a panic with the source's panic message. -/
inductive PanicOr (α : Type) where
  | panic (msg : String)
  | ok (v : α)
deriving DecidableEq, Repr

/-- The cyclic zip at the heart of the XOR branch of `decrypt_page`:
`bytes.iter().zip(key.iter().cycle()).map(|(v, k)| v ^ k).collect()`.
`cur` is the not-yet-consumed tail of the current pass over `key`; when it
runs out the iterator restarts from `key` (and if `key` itself is empty the
cycled iterator is empty, ending the zip). -/
def xorZip (key : List Nat) : List Nat → List Nat → List Nat
  | [], _ => []
  | b :: bs, k :: ks => (b ^^^ k) :: xorZip key bs ks
  | b :: bs, [] =>
    match key with
    | [] => []
    | k :: ks => (b ^^^ k) :: xorZip key bs ks

/-- The XOR branch of `decrypt_page` from `src/comic/mod.rs`. -/
def xorDecrypt (key : List Nat) (bytes : List Nat) : List Nat :=
  xorZip key bytes key

/-- `u64::from_le_bytes`: little-endian byte-list to number. -/
def leBytesToNat : List Nat → Nat
  | [] => 0
  | b :: bs => b + 256 * leBytesToNat bs

/-- The `DCUniverseInfinite` branch of `decrypt_page`, translated
step-for-step; `cbcDec key iv ct` abstracts the AES-256-CBC/no-padding
decryption of the `crypto` crate (`none` models a decryptor error, which
the source turns into a panic via `.expect`).  The branch:
reads the first 8 bytes as a little-endian size (slicing panics when fewer
than 8 bytes are available), panics with "Size not correct for final image"
when `size > bytes.len()`, takes bytes 8..24 as the IV (slicing panics when
fewer than 24 bytes are available), decrypts the rest and returns the bytes
written to the size-`size` output buffer. -/
def dcuDecrypt (cbcDec : List Nat → List Nat → List Nat → Option (List Nat))
    (key : List Nat) (bytes : List Nat) : PanicOr (List Nat) :=
  if bytes.length < 8 then
    .panic "range end index out of range"
  else
    let size := leBytesToNat (bytes.take 8)
    if size > bytes.length then
      .panic "Size not correct for final image"
    else if bytes.length < 24 then
      .panic "range end index out of range"
    else
      let iv := (bytes.drop 8).take 16
      match cbcDec key iv (bytes.drop 24) with
      | none => .panic "Could not decrypt image from DC Universe Infinite"
      | some out => .ok (out.take size)

/-! ## Outcome trampoline (`src/source/download.rs`) -/

/-- Response bodies, as `reqwest` delivers them: byte strings. -/
def Bytes : Type := List Nat
deriving DecidableEq, Repr

/-- Mirrors `SourceResponse<T>` from `src/source/mod.rs`: either a final
value or a pending `Request` — an ordered list of HTTP requests (modelled
by their URLs) together with a transform from the collected response
bodies to `Option` of the next response. -/
inductive SourceResponse (T : Type) where
  | Value (v : T)
  | Request (requests : List String)
      (transform : List Bytes → Option (SourceResponse T))

/-- The transport layer: sending one HTTP request either yields the body
bytes or a transport error (`reqwest` failure, carried as
`DownloadError.RequestError`). -/
def Net : Type := String → Except DownloadError Bytes

/-- Mirrors `make_request` from `src/source/download.rs`: send each
request in listed order collecting bodies positionally (a transport
failure aborts immediately via `?`), then apply the transform;
`None` becomes `Error::FailedResponseParse`. -/
def makeRequest {T : Type} (net : Net) (requests : List String)
    (transform : List Bytes → Option (SourceResponse T)) :
    Except DownloadError (SourceResponse T) := do
  let responses ← requests.mapM net
  match transform responses with
  | some next => .ok next
  | none => .error .FailedResponseParse

/-- Mirrors `eval_source_response` from `src/source/download.rs`: loop —
a `Value` is returned; a `Request` is executed with `make_request` and the
loop continues on the result.  The Rust loop has no hop bound and need not
terminate, so the model takes fuel counting executed `Request` hops;
`none` means the fuel ran out (the loop was still running). -/
def evalSourceResponse {T : Type} (net : Net) :
    Nat → SourceResponse T → Option (Except DownloadError T)
  | _, .Value v => some (.ok v)
  | 0, .Request _ _ => none
  | fuel + 1, .Request rs tf =>
    match makeRequest net rs tf with
    | .error e => some (.error e)
    | .ok next => evalSourceResponse net fuel next

/-- A chain of `n` empty-request hops ending in `Value v`; witnesses that
the trampoline follows arbitrarily long chains. -/
def hopChain {T : Type} (v : T) : Nat → SourceResponse T
  | 0 => .Value v
  | n + 1 => .Request [] (fun _ => some (hopChain v n))

/-! ## Resolver and downloader (`src/source/download.rs`)

The resolver and downloader drive a `Source` trait object; every call site
in `download.rs` immediately evaluates the returned `SourceResponse` with
`eval_source_response` under one fixed client.  The model works at that
evaluated level: a `ResolvedSource` packages each `Source` method composed
with `eval_source_response` under a fixed transport, so a method call
yields directly `Except DownloadError` of the evaluated value.  The
trampoline itself is modelled separately above. -/

/-- A `Source` (trait in `src/source/mod.rs`) with each method composed
with `eval_source_response`: the evaluated result of the corresponding
network conversation. -/
structure ResolvedSource where
  name : String
  getCorrectId : ComicId → Except DownloadError ComicId
  getSeriesIds : ComicId → Except DownloadError (List ComicId)
  getMetadata : ComicId → Except DownloadError Metadata
  getPages : ComicId → Except DownloadError (List Page)

/-- The result-merging loop of the `Series` arm of `get_all_ids`:
`for id in evaluated_ids { result.append(&mut id?) }` — concatenate the
per-child id lists, aborting with the first error. -/
def appendResults : List (Except DownloadError (List ComicId)) →
    Except DownloadError (List ComicId)
  | [] => .ok []
  | .error e :: _ => .error e
  | .ok l :: rest => (appendResults rest).map (fun ls => l ++ ls)

/-- Mirrors `get_all_ids` from `src/source/download.rs`.  The Rust
recursion is unbounded (`get_correct_id` may keep yielding non-leaf ids),
so the model takes fuel counting recursion depth; `none` means the fuel
ran out.  Arms:
`Other` asks the source for the corrected id and recurses on it;
`OtherWithMetadata(id, meta)` recurses on `Other(id)` and re-tags a
singleton `[Issue x]` result as `[IssueWithMetadata(x, meta)]`, passing
any other result through unchanged;
`Series` asks for the children and resolves each child (buffered
concurrency preserves child order, so the pure model resolves them in
order), concatenating with `appendResults`;
`Issue` / `IssueWithMetadata` are terminal singletons. -/
def getAllIds (src : ResolvedSource) :
    Nat → ComicId → Option (Except DownloadError (List ComicId))
  | 0, _ => none
  | fuel + 1, comicid =>
    match comicid with
    | .Other i =>
      match src.getCorrectId (.Other i) with
      | .error e => some (.error e)
      | .ok newId => getAllIds src fuel newId
    | .OtherWithMetadata i meta =>
      match getAllIds src fuel (.Other i) with
      | none => none
      | some (.error e) => some (.error e)
      | some (.ok newIds) =>
        some (.ok (match newIds with
          | [.Issue x] => [.IssueWithMetadata x meta]
          | _ => newIds))
    | .Series i =>
      match src.getSeriesIds (.Series i) with
      | .error e => some (.error e)
      | .ok newIds =>
        (newIds.mapM (getAllIds src fuel)).map appendResults
    | .Issue i => some (.ok [.Issue i])
    | .IssueWithMetadata i meta => some (.ok [.IssueWithMetadata i meta])

/-- Mirrors `Comic` from `src/comic/mod.rs`. -/
structure Comic where
  metadata : Metadata := {}
  pages : List Page := []
deriving DecidableEq, Repr

/-- Mirrors `metadata_from_comicid` from `src/source/download.rs`:
for `Issue` fetch the metadata from the source, for `IssueWithMetadata`
use the embedded metadata (no fetch); then push an identifier
`{source.name(), comicid.inner()}` onto `metadata.identifiers`.  The
other variants hit `unreachable!()`, modelled as a panic. -/
def metadataFromComicid (src : ResolvedSource) (comicid : ComicId) :
    PanicOr (Except DownloadError Metadata) :=
  let idStr := comicid.inner
  let meta0 : PanicOr (Except DownloadError Metadata) :=
    match comicid with
    | .Issue _ => .ok (src.getMetadata comicid)
    | .IssueWithMetadata _ meta => .ok (.ok meta)
    | _ => .panic "internal error: entered unreachable code"
  match meta0 with
  | .panic m => .panic m
  | .ok (.error e) => .ok (.error e)
  | .ok (.ok meta) =>
    .ok (.ok { meta with
      identifiers := meta.identifiers ++ [{ source := src.name, id := idStr }] })

/-- Mirrors `comic_from_comicid` from `src/source/download.rs`: get the
pages, get the metadata, assemble the `Comic` (remaining fields are the
struct defaults). -/
def comicFromComicid (src : ResolvedSource) (comicid : ComicId) :
    PanicOr (Except DownloadError Comic) :=
  match src.getPages comicid with
  | .error e => .ok (.error e)
  | .ok pages =>
    match metadataFromComicid src comicid with
    | .panic m => .panic m
    | .ok (.error e) => .ok (.error e)
    | .ok (.ok metadata) => .ok (.ok { metadata := metadata, pages := pages })

/-- Lifts the per-id download over a list, fail-fast, for
`download_comics`: the buffered stream's `try_collect` yields the comics
in input order when all succeed and otherwise the first error in input
order. -/
def collectComics (src : ResolvedSource) :
    List ComicId → PanicOr (Except DownloadError (List Comic))
  | [] => .ok (.ok [])
  | comicid :: rest =>
    match comicFromComicid src comicid with
    | .panic m => .panic m
    | .ok (.error e) => .ok (.error e)
    | .ok (.ok comic) =>
      match collectComics src rest with
      | .panic m => .panic m
      | .ok (.error e) => .ok (.error e)
      | .ok (.ok comics) => .ok (.ok (comic :: comics))

/-- Mirrors `download_comics` from `src/source/download.rs`:
`stream::iter(comic_ids).map(comic_from_comicid).buffered(5).try_collect()`
— order-preserving, and `try_collect` aborts the whole batch on the first
failed id. -/
def downloadComics (comicIds : List ComicId) (src : ResolvedSource) :
    PanicOr (Except DownloadError (List Comic)) :=
  collectComics src comicIds

/-! ## Archive writer (`src/comic/write.rs`, `src/metadata/mod.rs`) -/

/-- Mirrors `Comic::title` from `src/comic/mod.rs`: the metadata title,
or "UNKNOWN" when it is `None`. -/
def Comic.title (c : Comic) : String :=
  match c.metadata.title with
  | some t => t
  | none => "UNKNOWN"

/-- Rust `format!("{:0>3}", n)`: decimal rendering left-padded with '0'
to width 3. -/
def pad3 (n : Nat) : String :=
  let s := toString n
  if s.length < 3 then String.mk (List.replicate (3 - s.length) '0') ++ s
  else s

/-- The page entry name `format!("{} #{:0>3}.{}", title, n, file_format)`
from `Comic::write`. -/
def pageFileName (title : String) (n : Nat) (file_format : String) : String :=
  title ++ " #" ++ pad3 n ++ "." ++ file_format

/-- Mirrors `Metadata::export_all` from `src/metadata/mod.rs`: the two
metadata exports, a ComicRack `comicinfo.xml` and the native
`grawlix.json`, in that order.  The renderers (the ComicRack XML encoder
of `src/metadata/comicrack.rs` and `serde_json`) are taken as parameters:
the write-path claims do not depend on the rendered text. -/
def exportAll (renderComicrack renderJson : Metadata → String)
    (m : Metadata) : List (String × String) :=
  [("comicinfo.xml", renderComicrack m), ("grawlix.json", renderJson m)]

/-- One call against the `ComicFile` sink trait of `src/comic/write.rs`. -/
inductive ArchiveOp where
  | writeFile (name : String) (data : List Nat)
  | finish
deriving DecidableEq, Repr

/-- The page loop of `Comic::write`: iterate over the enumerated pages;
a `Container` page is skipped (`continue`) — its bytes already live in
the source archive; a `Url` page is downloaded (`pageData`, the transport)
and written under `pageFileName`.  `n` is the `enumerate` counter and
advances on every page, including skipped ones. -/
def pageOps (pageData : OnlinePage → List Nat) (title : String) :
    Nat → List Page → List ArchiveOp
  | _, [] => []
  | n, page :: rest =>
    match page.page_type with
    | .Container _ => pageOps pageData title (n + 1) rest
    | .Url op =>
      .writeFile (pageFileName title n page.file_format) (pageData op) ::
        pageOps pageData title (n + 1) rest

/-- UTF-8 bytes of a rendered metadata export (`data.as_bytes()`). -/
def strBytes (s : String) : List Nat :=
  s.toUTF8.toList.map (fun b => b.toNat)

/-- Mirrors the successful path of `Comic::write` from
`src/comic/write.rs` as the sequence of sink calls it makes: the page
loop, then one `write_file` per metadata export, then `finish()`. -/
def comicWriteTrace (pageData : OnlinePage → List Nat)
    (renderComicrack renderJson : Metadata → String) (c : Comic) :
    List ArchiveOp :=
  pageOps pageData c.title 0 c.pages ++
    (exportAll renderComicrack renderJson c.metadata).map
      (fun e => .writeFile e.1 (strBytes e.2)) ++
    [.finish]

/-! ## Progress ledger (`src/cli/main.rs`) -/

/-- Mirrors the persistence step of `setup_ctrlc` from `src/cli/main.rs`:
on interrupt, `rest = &comics[progress..]` is serialized to the progress
file — the suffix of the comic sequence starting at the first
not-yet-completed index (`progress` counts completed comics).
Serialization is `serde_json` and round-trips; the ledger is modelled by
the comic list itself. -/
def ledgerContents (comics : List Comic) (progress : Nat) : List Comic :=
  comics.drop progress

/-- Observable steps of `get_comics` from `src/cli/main.rs`. -/
inductive RunAction where
  | loadLedger
  | removeLedger
  | warnRemoveFailed
  | discover
deriving DecidableEq, Repr

/-- Environment of one `get_comics` run: whether the config enables the
progress file, the parsed progress file if one exists (`serde_json`
round-trips, so the file is modelled by its comic list), whether removing
it succeeds, and what link discovery would produce. -/
structure GetComicsEnv where
  useProgressFile : Bool
  progressFile : Option (List Comic)
  removeOk : Bool
  discovered : List Comic

/-- Mirrors `get_comics` from `src/cli/main.rs`: when the progress file
is enabled and present, load the remaining comics from it, remove the
file — a failed removal is only logged (`error!`) and does not change the
outcome — and return them, never running discovery; otherwise run link
discovery.  Returns the action trace in order alongside the comics. -/
def getComics (env : GetComicsEnv) : List RunAction × List Comic :=
  match env.useProgressFile, env.progressFile with
  | true, some comics =>
    ([RunAction.loadLedger, RunAction.removeLedger] ++
      (if env.removeOk then [] else [RunAction.warnRemoveFailed]), comics)
  | _, _ => ([RunAction.discover], env.discovered)

/-- Recognizer for the `finish` sink call. -/
def ArchiveOp.isFinish : ArchiveOp → Bool
  | .finish => true
  | _ => false

/-- A small concrete source used to evaluate the resolver theorems:
"a" corrects to the issue "x", "b" corrects to the series "s", and the
series "s" lists the issue "p" followed by the opaque id "a". -/
def exampleSource : ResolvedSource where
  name := "Example"
  getCorrectId := fun cid =>
    match cid with
    | .Other "a" => .ok (.Issue "x")
    | .Other "b" => .ok (.Series "s")
    | _ => .error (.UrlNotSupported "unknown")
  getSeriesIds := fun cid =>
    match cid with
    | .Series "s" => .ok [.Issue "p", .Other "a"]
    | _ => .error .FailedResponseParse
  getMetadata := fun cid =>
    match cid with
    | .Issue "p" => .ok {}
    | _ => .error .FailedResponseParse
  getPages := fun _ => .ok []

/-- A small concrete source used to evaluate the downloader theorems:
pages and metadata of the issue "good" succeed, pages of every other id
fail. -/
def failSource : ResolvedSource where
  name := "Example"
  getCorrectId := fun _ => .error .FailedResponseParse
  getSeriesIds := fun _ => .error .FailedResponseParse
  getMetadata := fun cid =>
    match cid with
    | .Issue "good" => .ok {}
    | _ => .error .FailedResponseParse
  getPages := fun cid =>
    match cid with
    | .Issue "good" => .ok []
    | _ => .error (.FailedDownload "bad")

/-- A small concrete transport used to evaluate the trampoline theorems:
the request "err" fails, every other request returns the body `[1]`. -/
def exampleNet : Net := fun url =>
  if url = "err" then .error (.RequestError "boom") else .ok [1]

/-! ## Helper lemmas -/

theorem xorZip_nil (key cur : List Nat) : xorZip key [] cur = [] := by
  cases cur <;> rfl

theorem xorZip_restart (key : List Nat) (hk : key ≠ []) (bs : List Nat) :
    xorZip key bs [] = xorZip key bs key := by
  cases bs with
  | nil => rfl
  | cons b bs' =>
    cases key with
    | nil => exact absurd rfl hk
    | cons k ks => rfl

theorem xorZip_length (key : List Nat) (hk : key ≠ []) (bs : List Nat) :
    ∀ cur : List Nat, (xorZip key bs cur).length = bs.length := by
  induction bs with
  | nil => intro cur; rw [xorZip_nil]
  | cons b bs ih =>
    intro cur
    cases cur with
    | cons k ks => simpa [xorZip] using ih ks
    | nil =>
      cases key with
      | nil => exact absurd rfl hk
      | cons k ks => simpa [xorZip] using ih ks

theorem xorZip_getD (key : List Nat) (hk : 0 < key.length) (bs : List Nat) :
    ∀ j i : Nat, j < key.length → i < bs.length →
      (xorZip key bs (key.drop j)).getD i 0 =
        bs.getD i 0 ^^^ key.getD ((j + i) % key.length) 0 := by
  induction bs with
  | nil => intro j i _ hi; exact absurd hi (by simp)
  | cons b bs ih =>
    intro j i hj hi
    rw [List.drop_eq_getElem_cons hj]
    have hstep : xorZip key (b :: bs) (key[j] :: key.drop (j + 1)) =
        (b ^^^ key[j]) :: xorZip key bs (key.drop (j + 1)) := rfl
    rw [hstep]
    cases i with
    | zero =>
      rw [List.getD_cons_zero, List.getD_cons_zero, Nat.add_zero,
        Nat.mod_eq_of_lt hj, List.getD_eq_getElem _ _ hj]
    | succ i =>
      rw [List.getD_cons_succ, List.getD_cons_succ]
      by_cases hj1 : j + 1 < key.length
      · rw [ih (j + 1) i hj1 (by simpa using hi)]
        have harith : j + 1 + i = j + (i + 1) := by omega
        rw [harith]
      · have hj1' : j + 1 = key.length := by omega
        rw [hj1', List.drop_length, xorZip_restart key (by
          intro hnil; rw [hnil] at hk; simp at hk) bs]
        have h0 : xorZip key bs key = xorZip key bs (key.drop 0) := by
          rw [List.drop_zero]
        rw [h0, ih 0 i hk (by simpa using hi), Nat.zero_add]
        have harith : j + (i + 1) = key.length + i := by omega
        rw [harith, Nat.add_mod_left]

theorem xorDecrypt_length (key : List Nat) (hk : key ≠ []) (bytes : List Nat) :
    (xorDecrypt key bytes).length = bytes.length :=
  xorZip_length key hk bytes key

theorem xorDecrypt_getD (key : List Nat) (hk : key ≠ []) (bytes : List Nat)
    (i : Nat) (hi : i < bytes.length) :
    (xorDecrypt key bytes).getD i 0 =
      bytes.getD i 0 ^^^ key.getD (i % key.length) 0 := by
  have hk' : 0 < key.length := List.length_pos.mpr hk
  have h := xorZip_getD key hk' bytes 0 i hk' hi
  rw [List.drop_zero] at h
  simpa using h

theorem xorDecrypt_empty_key (bytes : List Nat) :
    xorDecrypt [] bytes = [] := by
  cases bytes <;> rfl

theorem except_bind_ok {ε α β : Type} (a : α) (f : α → Except ε β) :
    (Except.ok a >>= f) = f a := rfl

theorem except_bind_error {ε α β : Type} (e : ε) (f : α → Except ε β) :
    ((Except.error e : Except ε α) >>= f) = .error e := rfl

theorem exceptMapM_prefix_error (net : Net) :
    ∀ (pre : List String) (r : String) (post : List String)
      (e : DownloadError),
      (∀ q ∈ pre, ∃ b, net q = .ok b) → net r = .error e →
      (pre ++ r :: post).mapM net = .error e := by
  intro pre
  induction pre with
  | nil =>
    intro r post e _ hr
    rw [List.nil_append, List.mapM_cons, hr, except_bind_error]
  | cons q pre ih =>
    intro r post e hpre hr
    obtain ⟨b, hb⟩ := hpre q (List.mem_cons_self q pre)
    rw [List.cons_append, List.mapM_cons, hb, except_bind_ok,
      ih r post e (fun q' hq' => hpre q' (List.mem_cons_of_mem q hq')) hr,
      except_bind_error]

theorem exceptMapM_ok_get (net : Net) :
    ∀ (rs : List String) (bodies : List Bytes),
      rs.mapM net = .ok bodies →
      bodies.length = rs.length ∧
      ∀ j (hj : j < rs.length) (hj' : j < bodies.length),
        net (rs.get ⟨j, hj⟩) = .ok (bodies.get ⟨j, hj'⟩) := by
  intro rs
  induction rs with
  | nil =>
    intro bodies h
    rw [List.mapM_nil] at h
    cases h
    exact ⟨rfl, fun j hj => absurd hj (by simp)⟩
  | cons r rs ih =>
    intro bodies h
    rw [List.mapM_cons] at h
    cases hnr : net r with
    | error e => rw [hnr, except_bind_error] at h; cases h
    | ok b =>
      rw [hnr, except_bind_ok] at h
      cases hrs : rs.mapM net with
      | error e => rw [hrs, except_bind_error] at h; cases h
      | ok bs =>
        rw [hrs, except_bind_ok] at h
        cases h
        obtain ⟨hlen, hget⟩ := ih bs hrs
        refine ⟨by simp [hlen], ?_⟩
        intro j hj hj'
        cases j with
        | zero => exact hnr
        | succ j =>
          exact hget j (by simpa using hj) (by simpa using hj')

theorem makeRequest_of_mapM_error {T : Type} (net : Net) (rs : List String)
    (tf : List Bytes → Option (SourceResponse T)) (e : DownloadError)
    (h : rs.mapM net = .error e) : makeRequest net rs tf = .error e := by
  unfold makeRequest
  rw [h, except_bind_error]

theorem makeRequest_of_mapM_ok {T : Type} (net : Net) (rs : List String)
    (tf : List Bytes → Option (SourceResponse T)) (bodies : List Bytes)
    (h : rs.mapM net = .ok bodies) :
    makeRequest net rs tf =
      match tf bodies with
      | some next => .ok next
      | none => .error .FailedResponseParse := by
  unfold makeRequest
  rw [h, except_bind_ok]

theorem option_bind_some {α β : Type} (a : α) (f : α → Option β) :
    ((some a : Option α) >>= f) = f a := rfl

theorem option_bind_none {α β : Type} (f : α → Option β) :
    ((none : Option α) >>= f) = none := rfl

theorem optionMapM_some_get {α β : Type} (f : α → Option β) :
    ∀ (xs : List α) (ys : List β), xs.mapM f = some ys →
      ys.length = xs.length ∧
      ∀ j (hj : j < xs.length) (hj' : j < ys.length),
        f (xs.get ⟨j, hj⟩) = some (ys.get ⟨j, hj'⟩) := by
  intro xs
  induction xs with
  | nil =>
    intro ys h
    rw [List.mapM_nil] at h
    cases h
    exact ⟨rfl, fun j hj => absurd hj (by simp)⟩
  | cons x xs ih =>
    intro ys h
    rw [List.mapM_cons] at h
    cases hfx : f x with
    | none => rw [hfx, option_bind_none] at h; cases h
    | some b =>
      rw [hfx, option_bind_some] at h
      cases hxs : xs.mapM f with
      | none => rw [hxs, option_bind_none] at h; cases h
      | some bs =>
        rw [hxs, option_bind_some] at h
        cases h
        obtain ⟨hlen, hget⟩ := ih bs hxs
        refine ⟨by simp [hlen], ?_⟩
        intro j hj hj'
        cases j with
        | zero => exact hfx
        | succ j =>
          exact hget j (by simpa using hj) (by simpa using hj')

theorem optionMapM_mem {α β : Type} (f : α → Option β) :
    ∀ (xs : List α) (ys : List β), xs.mapM f = some ys →
      ∀ y ∈ ys, ∃ x ∈ xs, f x = some y := by
  intro xs
  induction xs with
  | nil =>
    intro ys h
    rw [List.mapM_nil] at h
    cases h
    intro y hy
    exact absurd hy (by simp)
  | cons x xs ih =>
    intro ys h
    rw [List.mapM_cons] at h
    cases hfx : f x with
    | none => rw [hfx, option_bind_none] at h; cases h
    | some b =>
      rw [hfx, option_bind_some] at h
      cases hxs : xs.mapM f with
      | none => rw [hxs, option_bind_none] at h; cases h
      | some bs =>
        rw [hxs, option_bind_some] at h
        cases h
        intro y hy
        rcases List.mem_cons.mp hy with hy | hy
        · exact ⟨x, List.mem_cons_self x xs, hy ▸ hfx⟩
        · obtain ⟨x', hx', hfx'⟩ := ih bs hxs y hy
          exact ⟨x', List.mem_cons_of_mem x hx', hfx'⟩

theorem appendResults_ok :
    ∀ (rs : List (Except DownloadError (List ComicId))) (L : List ComicId),
      appendResults rs = .ok L →
      ∃ parts : List (List ComicId),
        rs = parts.map Except.ok ∧ L = parts.flatten := by
  intro rs
  induction rs with
  | nil =>
    intro L h
    cases h
    exact ⟨[], rfl, rfl⟩
  | cons r rs ih =>
    intro L h
    cases r with
    | error e => cases h
    | ok l =>
      simp only [appendResults] at h
      cases har : appendResults rs with
      | error e => rw [har] at h; cases h
      | ok ls =>
        rw [har] at h
        cases h
        obtain ⟨parts, hp1, hp2⟩ := ih ls har
        exact ⟨l :: parts, by rw [List.map_cons, ← hp1], by
          rw [List.flatten_cons, ← hp2]⟩

/-! ## Claim theorems -/

/-- Claim C5: for every input byte string and every non-empty key, the XOR
branch of `decrypt_page` returns an output of the same length with
`out[i] = in[i] XOR key[i mod len(key)]` at every index, and applying it
twice with the same key gives back the input (XOR encryption and
decryption are the same function). -/
theorem xor_decrypt_spec (key bytes : List Nat) (hk : key ≠ []) :
    (xorDecrypt key bytes).length = bytes.length ∧
    (∀ i, i < bytes.length →
      (xorDecrypt key bytes).getD i 0 =
        bytes.getD i 0 ^^^ key.getD (i % key.length) 0) ∧
    xorDecrypt key (xorDecrypt key bytes) = bytes := by
  refine ⟨xorDecrypt_length key hk bytes,
    fun i hi => xorDecrypt_getD key hk bytes i hi, ?_⟩
  have hlen1 : (xorDecrypt key bytes).length = bytes.length :=
    xorDecrypt_length key hk bytes
  have hlen2 : (xorDecrypt key (xorDecrypt key bytes)).length = bytes.length := by
    rw [xorDecrypt_length key hk _, hlen1]
  apply List.ext_getElem (by rw [hlen2])
  intro i h1 h2
  have hi : i < bytes.length := by omega
  have hi1 : i < (xorDecrypt key bytes).length := by omega
  rw [← List.getD_eq_getElem _ 0 h1, ← List.getD_eq_getElem _ 0 h2,
    xorDecrypt_getD key hk _ i hi1, xorDecrypt_getD key hk bytes i hi,
    Nat.xor_cancel_right]

/-- Claim C5 witness: the theorem applied at key `[1, 2]`,
input `[5, 6, 7]`. -/
theorem xor_decrypt_spec_witness :
    (xorDecrypt [1, 2] [5, 6, 7]).length = [5, 6, 7].length ∧
    (∀ i, i < [5, 6, 7].length →
      (xorDecrypt [1, 2] [5, 6, 7]).getD i 0 =
        [5, 6, 7].getD i 0 ^^^ [1, 2].getD (i % [1, 2].length) 0) ∧
    xorDecrypt [1, 2] (xorDecrypt [1, 2] [5, 6, 7]) = [5, 6, 7] :=
  xor_decrypt_spec [1, 2] [5, 6, 7] (by decide)

/-- Claim C10 counterexample: with the empty key and the empty input, the
output length does equal the input length even though the key is empty, so
"the output length equals the input length only when the key is
non-empty" fails at input `[]`. -/
theorem xor_empty_key_counterexample :
    xorDecrypt ([] : List Nat) [] = [] ∧
    (xorDecrypt ([] : List Nat) []).length = ([] : List Nat).length := by
  decide

/-- Claim C10 (amended): for every input byte string, XOR decryption with
an empty key returns the empty byte string (the cyclic key iterator yields
no elements); the output length equals the input length exactly when the
key is non-empty or the input is empty. -/
theorem xor_empty_key_spec (key bytes : List Nat) :
    xorDecrypt [] bytes = [] ∧
    ((xorDecrypt key bytes).length = bytes.length ↔ key ≠ [] ∨ bytes = []) := by
  refine ⟨xorDecrypt_empty_key bytes, ?_, ?_⟩
  · intro hlen
    by_cases hk : key = []
    · subst hk
      rw [xorDecrypt_empty_key bytes] at hlen
      right
      cases bytes with
      | nil => rfl
      | cons b bs => simp at hlen
    · exact Or.inl hk
  · intro h
    rcases h with hk | hb
    · exact xorDecrypt_length key hk bytes
    · subst hb
      rw [show xorDecrypt key [] = [] from xorZip_nil key key]

/-- Claim C2: the claim says a `DCUniverseInfinite` (`VendorFramed`)
page whose declared size exceeds the available bytes yields a
corrupt-stream error value and never panics; the code instead executes
`panic!("Size not correct for final image")` (its own `TODO: Better error
handling` comment marks the panic as a stopgap).  This theorem evaluates
the code on any such input: for every cipher backend and key, whenever the
input has at least 8 bytes and the little-endian size in the first 8 bytes
exceeds the number of available bytes, the branch panics. -/
theorem dcu_oversize_panics
    (cbcDec : List Nat → List Nat → List Nat → Option (List Nat))
    (key bytes : List Nat) (h8 : 8 ≤ bytes.length)
    (hsz : leBytesToNat (bytes.take 8) > bytes.length) :
    dcuDecrypt cbcDec key bytes = .panic "Size not correct for final image" := by
  unfold dcuDecrypt
  rw [if_neg (by omega), if_pos hsz]

/-- Claim C2 witness: the theorem applied at the concrete 8-byte input
`[9, 0, 0, 0, 0, 0, 0, 0]`, whose declared size 9 exceeds the 8 available
bytes, under a trivial cipher backend. -/
theorem dcu_oversize_panics_witness :
    dcuDecrypt (fun _ _ _ => none) [] [9, 0, 0, 0, 0, 0, 0, 0] =
      .panic "Size not correct for final image" :=
  dcu_oversize_panics (fun _ _ _ => none) [] [9, 0, 0, 0, 0, 0, 0, 0]
    (by decide) (by decide)

/-- Claim C6: building metadata from `IssueWithMetadata(x, meta)` uses the
embedded metadata with exactly one identifier `{source.name(), x}`
appended and every other field unchanged, and the result does not depend
on the source's `get_metadata` (no metadata fetch can influence it). -/
theorem metadata_from_issue_with_metadata (src : ResolvedSource)
    (gm : ComicId → Except DownloadError Metadata) (x : String)
    (meta : Metadata) :
    metadataFromComicid src (.IssueWithMetadata x meta) =
      .ok (.ok { meta with
        identifiers := meta.identifiers ++ [{ source := src.name, id := x }] }) ∧
    metadataFromComicid { src with getMetadata := gm }
        (.IssueWithMetadata x meta) =
      metadataFromComicid src (.IssueWithMetadata x meta) :=
  ⟨rfl, rfl⟩

/-- Claim C7: resolving `OtherWithMetadata(id, meta)` recurses on
`Other(id)`; when the recursion yields exactly one `Issue(x)` the output
is the singleton `[IssueWithMetadata(x, meta)]`, and in every other
successful case the recursive results pass through unchanged (so `meta` is
dropped). -/
theorem other_with_metadata_retag (src : ResolvedSource) (fuel : Nat)
    (i : String) (meta : Metadata) :
    (∀ x, getAllIds src fuel (.Other i) = some (.ok [.Issue x]) →
      getAllIds src (fuel + 1) (.OtherWithMetadata i meta) =
        some (.ok [.IssueWithMetadata x meta])) ∧
    (∀ l, getAllIds src fuel (.Other i) = some (.ok l) →
      (∀ x, l ≠ [.Issue x]) →
      getAllIds src (fuel + 1) (.OtherWithMetadata i meta) = some (.ok l)) := by
  constructor
  · intro x h
    simp only [getAllIds]
    rw [h]
  · intro l h hne
    simp only [getAllIds]
    rw [h]
    rcases l with _ | ⟨hd, tl⟩
    · rfl
    · rcases tl with _ | ⟨hd2, tl2⟩
      · cases hd with
        | Issue x => exact absurd rfl (hne x)
        | IssueWithMetadata y m => rfl
        | Other y => rfl
        | OtherWithMetadata y m => rfl
        | Series y => rfl
      · cases hd <;> rfl

/-- Claim C7 witness: the theorem applied to `exampleSource` — the
single-`Issue` branch on id "a" and the pass-through branch on id "b",
whose correction resolves to two issues. -/
theorem other_with_metadata_retag_witness :
    getAllIds exampleSource 3 (.OtherWithMetadata "a" {}) =
      some (.ok [.IssueWithMetadata "x" {}]) ∧
    getAllIds exampleSource 5 (.OtherWithMetadata "b" {}) =
      some (.ok [.Issue "p", .Issue "x"]) := by
  constructor
  · exact (other_with_metadata_retag exampleSource 2 "a" {}).1 "x" rfl
  · refine (other_with_metadata_retag exampleSource 4 "b" {}).2
      [.Issue "p", .Issue "x"] rfl ?_
    intro x hx
    simp at hx

/-- Claim C1 counterexample: the claim says a failing id is logged and
skipped and the batch still returns a `Comic` for every succeeding id; on
`failSource` the issue "good" succeeds on its own, yet
`download_comics [bad, good]` returns the error of "bad" and no comics —
`try_collect` aborts the whole batch. -/
theorem download_comics_counterexample :
    downloadComics [.Issue "bad", .Issue "good"] failSource =
      .ok (.error (.FailedDownload "bad")) ∧
    comicFromComicid failSource (.Issue "good") =
      .ok (.ok { metadata := { identifiers := [{ source := "Example", id := "good" }] }
                 pages := [] }) := by
  constructor
  · rfl
  · rfl

/-- Claim C1 (amended): `download_comics` is fail-fast: whenever every id
before some failing id succeeds, the whole batch returns that id's error
(in input order) and no comics; a failing id aborts the batch instead of
being skipped. -/
theorem download_comics_failfast (src : ResolvedSource)
    (pre post : List ComicId) (badId : ComicId) (e : DownloadError)
    (hpre : ∀ c ∈ pre, ∃ comic, comicFromComicid src c = .ok (.ok comic))
    (hbad : comicFromComicid src badId = .ok (.error e)) :
    downloadComics (pre ++ badId :: post) src = .ok (.error e) := by
  induction pre with
  | nil =>
    show collectComics src (badId :: post) = .ok (.error e)
    simp only [collectComics]
    rw [hbad]
  | cons c pre ih =>
    obtain ⟨comic, hc⟩ := hpre c (List.mem_cons_self c pre)
    have ih' := ih (fun c' hc' => hpre c' (List.mem_cons_of_mem c hc'))
    show collectComics src (c :: (pre ++ badId :: post)) = .ok (.error e)
    simp only [collectComics]
    rw [hc]
    have : collectComics src (pre ++ badId :: post) = .ok (.error e) := ih'
    rw [this]

/-- Claim C1 witness: the amended theorem applied on `failSource` with the
succeeding issue "good" before the failing issue "bad". -/
theorem download_comics_failfast_witness :
    downloadComics [.Issue "good", .Issue "bad"] failSource =
      .ok (.error (.FailedDownload "bad")) := by
  have h := download_comics_failfast failSource [.Issue "good"] []
    (.Issue "bad") (.FailedDownload "bad")
    (by
      intro c hc
      simp only [List.mem_singleton] at hc
      subst hc
      exact ⟨{ metadata := { identifiers := [{ source := "Example", id := "good" }] }
               pages := [] }, rfl⟩)
    rfl
  simpa using h

/-- Claim C4: the trampoline returns `Ok(v)` on `Value(v)`; on a plan it
executes the requests in listed order collecting the bodies positionally —
a transport failure anywhere (after any succeeding prefix) aborts the
whole chain with that error and no retry — and, with all transports
succeeding, fails with the response-parse error exactly when the transform
returns `None`, otherwise continuing the loop on the transform's outcome;
and it follows chains of arbitrarily many hops (`hopChain n` needs exactly
`n` hops). -/
theorem eval_source_response_spec (net : Net) :
    (∀ (T : Type) (fuel : Nat) (v : T),
      evalSourceResponse net fuel (.Value v) = some (.ok v)) ∧
    (∀ (T : Type) (fuel : Nat) (pre post : List String) (r : String)
      (tf : List Bytes → Option (SourceResponse T)) (e : DownloadError),
      (∀ q ∈ pre, ∃ b, net q = .ok b) → net r = .error e →
      evalSourceResponse net (fuel + 1) (.Request (pre ++ r :: post) tf) =
        some (.error e)) ∧
    (∀ (T : Type) (fuel : Nat) (rs : List String)
      (tf : List Bytes → Option (SourceResponse T)) (bodies : List Bytes),
      rs.mapM net = .ok bodies →
      (bodies.length = rs.length ∧
        ∀ j (hj : j < rs.length) (hj' : j < bodies.length),
          net (rs.get ⟨j, hj⟩) = .ok (bodies.get ⟨j, hj'⟩)) ∧
      (tf bodies = none →
        evalSourceResponse net (fuel + 1) (.Request rs tf) =
          some (.error .FailedResponseParse)) ∧
      (∀ next, tf bodies = some next →
        evalSourceResponse net (fuel + 1) (.Request rs tf) =
          evalSourceResponse net fuel next)) ∧
    (∀ (T : Type) (n : Nat) (v : T),
      evalSourceResponse net n (hopChain v n) = some (.ok v)) := by
  refine ⟨?_, ?_, ?_, ?_⟩
  · intro T fuel v
    cases fuel <;> rfl
  · intro T fuel pre post r tf e hpre hr
    simp only [evalSourceResponse]
    rw [makeRequest_of_mapM_error net _ tf e
      (exceptMapM_prefix_error net pre r post e hpre hr)]
  · intro T fuel rs tf bodies h
    refine ⟨exceptMapM_ok_get net rs bodies h, ?_, ?_⟩
    · intro htf
      simp only [evalSourceResponse]
      rw [makeRequest_of_mapM_ok net rs tf bodies h, htf]
    · intro next htf
      simp only [evalSourceResponse]
      rw [makeRequest_of_mapM_ok net rs tf bodies h, htf]
  · intro T n v
    induction n with
    | zero => rfl
    | succ n ih =>
      show evalSourceResponse net (n + 1) (.Request [] _) = some (.ok v)
      simp only [evalSourceResponse]
      rw [makeRequest_of_mapM_ok net [] _ [] (by rw [List.mapM_nil]; rfl)]
      exact ih

/-- Claim C4 witness: the theorem applied to `exampleNet` — a transport
failure on the second listed request aborts with that error after the
first request succeeded, and a transform returning `None` on the
collected body yields the response-parse error. -/
theorem eval_source_response_spec_witness :
    evalSourceResponse exampleNet 1
      (.Request ["ok", "err"] (fun _ => (none : Option (SourceResponse Nat)))) =
      some (.error (.RequestError "boom")) ∧
    evalSourceResponse exampleNet 1
      (.Request ["ok"] (fun _ => (none : Option (SourceResponse Nat)))) =
      some (.error .FailedResponseParse) := by
  constructor
  · exact (eval_source_response_spec exampleNet).2.1 Nat 0 ["ok"] [] "err"
      (fun _ => none) (.RequestError "boom")
      (by
        intro q hq
        simp only [List.mem_singleton] at hq
        subst hq
        exact ⟨[1], rfl⟩)
      rfl
  · exact (((eval_source_response_spec exampleNet).2.2.1 Nat 0 ["ok"]
      (fun _ => none) [[1]] (by rw [List.mapM_cons, List.mapM_nil]; rfl)).2.1) rfl

/-- Claim C3: every id list `get_all_ids` successfully returns contains
only leaf variants (`Issue` or `IssueWithMetadata`, never `Other` or
`Series`); and for a `Series` whose children resolve to per-child leaf
lists, the output is exactly the concatenation of those lists in the
original child order, its total length the sum of the per-child
lengths. -/
theorem get_all_ids_spec (src : ResolvedSource) :
    (∀ (fuel : Nat) (cid : ComicId) (l : List ComicId),
      getAllIds src fuel cid = some (.ok l) → ∀ x ∈ l, x.isLeaf = true) ∧
    (∀ (fuel : Nat) (sid : String) (children L : List ComicId),
      src.getSeriesIds (.Series sid) = .ok children →
      getAllIds src (fuel + 1) (.Series sid) = some (.ok L) →
      ∃ parts : List (List ComicId),
        parts.length = children.length ∧
        (∀ j (hj : j < children.length) (hj' : j < parts.length),
          getAllIds src fuel (children.get ⟨j, hj⟩) =
            some (.ok (parts.get ⟨j, hj'⟩))) ∧
        L = parts.flatten ∧
        L.length = (parts.map List.length).sum) := by
  constructor
  · intro fuel
    induction fuel with
    | zero =>
      intro cid l h
      exact absurd h (by simp [getAllIds])
    | succ fuel ih =>
      intro cid l h
      cases cid with
      | Issue i =>
        simp only [getAllIds, Option.some.injEq, Except.ok.injEq] at h
        intro x hx
        rw [← h] at hx
        simp only [List.mem_singleton] at hx
        subst hx
        rfl
      | IssueWithMetadata i meta =>
        simp only [getAllIds, Option.some.injEq, Except.ok.injEq] at h
        intro x hx
        rw [← h] at hx
        simp only [List.mem_singleton] at hx
        subst hx
        rfl
      | Other i =>
        simp only [getAllIds] at h
        cases hc : src.getCorrectId (.Other i) with
        | error e => rw [hc] at h; simp at h
        | ok newId =>
          rw [hc] at h
          exact ih newId l h
      | OtherWithMetadata i meta =>
        simp only [getAllIds] at h
        cases hr : getAllIds src fuel (.Other i) with
        | none => rw [hr] at h; simp at h
        | some res =>
          cases res with
          | error e => rw [hr] at h; simp at h
          | ok newIds =>
            rw [hr] at h
            simp only [Option.some.injEq, Except.ok.injEq] at h
            have hleaves := ih (.Other i) newIds hr
            intro x hx
            rw [← h] at hx
            rcases newIds with _ | ⟨hd, tl⟩
            · exact hleaves x hx
            · rcases tl with _ | ⟨hd2, tl2⟩
              · cases hd with
                | Issue y =>
                  simp only [List.mem_singleton] at hx
                  subst hx
                  rfl
                | IssueWithMetadata y m => exact hleaves x hx
                | Other y => exact hleaves x hx
                | OtherWithMetadata y m => exact hleaves x hx
                | Series y => exact hleaves x hx
              · cases hd <;> exact hleaves x hx
      | Series i =>
        simp only [getAllIds] at h
        cases hs : src.getSeriesIds (.Series i) with
        | error e => rw [hs] at h; simp at h
        | ok children =>
          rw [hs] at h
          dsimp only at h
          cases hm : children.mapM (getAllIds src fuel) with
          | none => rw [hm] at h; simp at h
          | some results =>
            rw [hm] at h
            have har : appendResults results = .ok l := by simpa using h
            obtain ⟨parts, hparts, hjoin⟩ := appendResults_ok results l har
            intro x hx
            rw [hjoin] at hx
            obtain ⟨part, hpart, hxin⟩ := List.mem_flatten.mp hx
            have hmem : Except.ok part ∈ results := by
              rw [hparts]
              exact List.mem_map_of_mem _ hpart
            obtain ⟨c, hc, hfc⟩ :=
              optionMapM_mem (getAllIds src fuel) children results hm _ hmem
            exact ih c part hfc x hxin
  · intro fuel sid children L hs hL
    simp only [getAllIds] at hL
    rw [hs] at hL
    dsimp only at hL
    cases hm : children.mapM (getAllIds src fuel) with
    | none => rw [hm] at hL; simp at hL
    | some results =>
      rw [hm] at hL
      have har : appendResults results = .ok L := by simpa using hL
      obtain ⟨parts, hparts, hjoin⟩ := appendResults_ok results L har
      obtain ⟨hlen, hget⟩ :=
        optionMapM_some_get (getAllIds src fuel) children results hm
      subst hparts
      refine ⟨parts, by simpa using hlen, ?_, hjoin, ?_⟩
      · intro j hj hj'
        have hj'' : j < (parts.map
            (Except.ok : List ComicId → Except DownloadError (List ComicId))).length := by
          simpa using hj'
        have hidx := hget j hj hj''
        have hmap : (parts.map
            (Except.ok : List ComicId → Except DownloadError (List ComicId))).get
              ⟨j, hj''⟩ = Except.ok (parts.get ⟨j, hj'⟩) := by
          simp [List.get_eq_getElem, List.getElem_map]
        rw [hmap] at hidx
        exact hidx
      · rw [hjoin, List.length_flatten]

/-- Claim C3 witness: on `exampleSource`, `Series "s"` lists
`[Issue "p", Other "a"]`; resolving it gives the two leaves
`[Issue "p", Issue "x"]` in child order, the concatenation of the
per-child results. -/
theorem get_all_ids_spec_witness :
    (∀ x ∈ ([.Issue "p", .Issue "x"] : List ComicId), x.isLeaf = true) ∧
    (∃ parts : List (List ComicId),
      parts.length = ([.Issue "p", .Other "a"] : List ComicId).length ∧
      (∀ j (hj : j < ([.Issue "p", .Other "a"] : List ComicId).length)
        (hj' : j < parts.length),
        getAllIds exampleSource 3
            (([.Issue "p", .Other "a"] : List ComicId).get ⟨j, hj⟩) =
          some (.ok (parts.get ⟨j, hj'⟩))) ∧
      ([.Issue "p", .Issue "x"] : List ComicId) = parts.flatten ∧
      ([.Issue "p", .Issue "x"] : List ComicId).length =
        (parts.map List.length).sum) := by
  constructor
  · exact (get_all_ids_spec exampleSource).1 4 (.Series "s")
      [.Issue "p", .Issue "x"] rfl
  · exact (get_all_ids_spec exampleSource).2 3 "s" [.Issue "p", .Other "a"]
      [.Issue "p", .Issue "x"] rfl rfl

theorem pageOps_eq_filterMap (pageData : OnlinePage → List Nat)
    (title : String) :
    ∀ (n : Nat) (pages : List Page),
      pageOps pageData title n pages =
        (pages.enumFrom n).filterMap (fun e =>
          match e.2.page_type with
          | .Container _ => none
          | .Url op =>
            some (.writeFile (pageFileName title e.1 e.2.file_format)
              (pageData op))) := by
  intro n pages
  induction pages generalizing n with
  | nil => rfl
  | cons p rest ih =>
    rw [List.enumFrom_cons, List.filterMap_cons]
    cases hp : p.page_type with
    | Container f =>
      simp only [pageOps, hp]
      exact ih (n + 1)
    | Url op =>
      simp only [pageOps, hp]
      rw [ih (n + 1)]

theorem pageOps_countP_finish (pageData : OnlinePage → List Nat)
    (title : String) :
    ∀ (n : Nat) (pages : List Page),
      (pageOps pageData title n pages).countP (fun op => op.isFinish) = 0 := by
  intro n pages
  induction pages generalizing n with
  | nil => rfl
  | cons p rest ih =>
    cases hp : p.page_type with
    | Container f =>
      simp only [pageOps, hp]
      exact ih (n + 1)
    | Url op =>
      simp only [pageOps, hp]
      rw [List.countP_cons, ih (n + 1)]
      rfl

/-- Claim C8: writing a Comic produces exactly — in order — one archive
entry per online-origin page (a container/embedded page at any index is
skipped while still advancing the index), each named
`"{title} #{zero-padded index}.{format}"`, then the two metadata exports
(`comicinfo.xml` and `grawlix.json`) as separate entries, then a single
`finish()`, which is the last sink call and occurs exactly once. -/
theorem comic_write_trace_spec (pageData : OnlinePage → List Nat)
    (renderComicrack renderJson : Metadata → String) (c : Comic) :
    comicWriteTrace pageData renderComicrack renderJson c =
      (c.pages.enumFrom 0).filterMap (fun e =>
        match e.2.page_type with
        | .Container _ => none
        | .Url op =>
          some (.writeFile (pageFileName c.title e.1 e.2.file_format)
            (pageData op))) ++
      [.writeFile "comicinfo.xml" (strBytes (renderComicrack c.metadata)),
        .writeFile "grawlix.json" (strBytes (renderJson c.metadata)),
        .finish] ∧
    (comicWriteTrace pageData renderComicrack renderJson c).getLast? =
      some .finish ∧
    (comicWriteTrace pageData renderComicrack renderJson c).countP
      (fun op => op.isFinish) = 1 := by
  refine ⟨?_, ?_, ?_⟩
  · unfold comicWriteTrace exportAll
    rw [pageOps_eq_filterMap, List.append_assoc]
    rfl
  · unfold comicWriteTrace
    rw [List.getLast?_concat]
  · unfold comicWriteTrace exportAll
    rw [List.countP_append, List.countP_append, pageOps_countP_finish]
    rfl

/-- Claim C9: an interrupt after exactly `p` completed comics persists
exactly the suffix `comics[p..]` to the Ledger; a later run that finds
that Ledger returns exactly that sequence, never runs discovery, attempts
the Ledger deletion before handing the comics to processing, and a failed
deletion only adds a logged warning without changing the outcome
(non-fatal). -/
theorem ledger_resume_spec (comics : List Comic) (p : Nat) (removeOk : Bool)
    (discovered : List Comic) :
    ledgerContents comics p = comics.drop p ∧
    (getComics ⟨true, some (ledgerContents comics p), removeOk,
      discovered⟩).2 = comics.drop p ∧
    RunAction.discover ∉ (getComics ⟨true, some (ledgerContents comics p),
      removeOk, discovered⟩).1 ∧
    RunAction.removeLedger ∈ (getComics ⟨true, some (ledgerContents comics p),
      removeOk, discovered⟩).1 ∧
    (RunAction.warnRemoveFailed ∈ (getComics ⟨true,
      some (ledgerContents comics p), removeOk, discovered⟩).1 ↔
      removeOk = false) := by
  refine ⟨rfl, rfl, ?_, ?_, ?_⟩ <;> cases removeOk <;> simp [getComics]

end Grawlix
